import Mathlib

/-!
# Audio-Visualizer terrain: a shallow embedding

Shallow embedding of `src/app.py` (class `Terrain`) over exact rationals.
Python/NumPy floats are modelled as `ℚ` with exact decimal literals; the
byte buffers delivered by the audio stream are `List (Fin 256)`; Python
exceptions (struct.unpack size mismatch, numpy reshape size mismatch) are
modelled with `Option`.  The OpenSimplex noise generator is external
third-party code; `Terrain.mesh` only ever calls its `noise2` method, so the
seeded generator is embedded as an opaque function field `noise2 : ℚ → ℚ → ℚ`
of the state.  The Qt window, the PyAudio handles and the GLMeshItem are
rendering/IO collaborators that the mesh algorithm never reads; they are
omitted from the state.
-/

namespace AudioVisualizer

abbrev Vertex := ℚ × ℚ × ℚ
abbrev Face := ℕ × ℕ × ℕ
abbrev Color := ℚ × ℚ × ℚ × ℚ
abbrev MeshData := List Vertex × List Face × List Color

/-- Model of `np.array(buf, dtype="b")`: reinterprets an unsigned byte as a
signed 8-bit value (two's complement). -/
def toSigned8 (b : Fin 256) : ℤ :=
  if (b : ℕ) < 128 then ((b : ℕ) : ℤ) else ((b : ℕ) : ℤ) - 256

/-- The numpy slice `[::2]`: every second element starting at index 0. -/
def everySecond : List α → List α
  | [] => []
  | [a] => [a]
  | a :: _ :: rest => a :: everySecond rest

/-- Rows of `numpy.reshape((nx, ny))` in row-major (C) order: `nx` rows of
`ny` consecutive elements. -/
def reshapeRows : ℕ → ℕ → List ℚ → List (List ℚ)
  | 0, _, _ => []
  | nx + 1, ny, l => l.take ny :: reshapeRows nx ny (l.drop ny)

/-- Model of `numpy.reshape((nx, ny))`: fails unless the element count
matches. -/
def reshape (nx ny : ℕ) (l : List ℚ) : Option (List (List ℚ)) :=
  if l.length = nx * ny then some (reshapeRows nx ny l) else none

/-- Element count of `np.arange(lo, hi, step)` for positive `step`:
the values `lo + k*step` with `lo + k*step < hi`, i.e. `⌈(hi-lo)/step⌉`
of them. -/
def arangeLen (lo hi step : ℚ) : ℕ := (⌈(hi - lo) / step⌉).toNat

/-- Model of `np.arange(lo, hi, step)` (positive step), over exact
rationals. -/
def arange (lo hi step : ℚ) : List ℚ :=
  (List.range (arangeLen lo hi step)).map (fun k : ℕ => lo + step * (k : ℚ))

/-- The state of `Terrain` that the mesh algorithm reads (`__init__`,
lines 41-61).  `noise2` stands for the seeded `OpenSimplex(seed=0).noise2`
query function. -/
structure Terrain where
  nsteps : ℚ
  offset : ℚ
  ypoints : List ℚ
  xpoints : List ℚ
  nfaces : ℕ
  RATE : ℕ
  CHUNK : ℕ
  noise2 : ℚ → ℚ → ℚ

/-- Model of `Terrain.__init__` (lines 41-61), parametrised by the step size whose
reference value is `nsteps = 1.3 = 13/10` and by the external noise
generator:
`ypoints = xpoints = np.arange(-20, 20 + nsteps, nsteps)`,
`nfaces = len(ypoints)`, `RATE = 44100`,
`CHUNK = len(xpoints) * len(ypoints)`, `offset = 0`. -/
def initTerrain (noise2 : ℚ → ℚ → ℚ) (nsteps : ℚ) : Terrain :=
  let ypoints := arange (-20) (20 + nsteps) nsteps
  let xpoints := arange (-20) (20 + nsteps) nsteps
  { nsteps := nsteps
    offset := 0
    ypoints := ypoints
    xpoints := xpoints
    nfaces := ypoints.length
    RATE := 44100
    CHUNK := xpoints.length * ypoints.length
    noise2 := noise2 }

/-- Lines 88-91 of `mesh`: `struct.unpack(str(2*CHUNK)+"B", waveform)`
(fails unless the buffer holds exactly `2*CHUNK` bytes), then
`np.array(_, dtype="b")[::2] + 128` (the int8 array plus the Python int 128
promotes to a wider integer dtype, so no wrap-around), then
`np.array(_, dtype="int32") - 128`, then `* 0.02`. -/
def decodeWaveform (CHUNK : ℕ) (buf : List (Fin 256)) : Option (List ℚ) :=
  if buf.length = 2 * CHUNK then
    some ((((everySecond (buf.map toSigned8)).map (fun s => s + 128)).map
      (fun v => v - 128)).map (fun v : ℤ => (v : ℚ) * (2 / 100)))
  else none

/-- Lines 87-95 of `mesh`: decode the supplied waveform and reshape it to
`(len(xpoints), len(ypoints))`; with no waveform, reshape `np.array([1]*1024)`
instead (note the hard-coded 1024). -/
def amplitudeMatrix (t : Terrain) (waveform : Option (List (Fin 256))) :
    Option (List (List ℚ)) :=
  match waveform with
  | some buf =>
      (decodeWaveform t.CHUNK buf).bind
        (fun flat => reshape t.xpoints.length t.ypoints.length flat)
  | none => reshape t.xpoints.length t.ypoints.length (List.replicate 1024 1)

/-- Lines 99-112 of `mesh`: the vertex comprehension
`[[x, y, waveform[xid][yid] * noise.noise2(x=xid/5 + self.offset, y=yid/5 + self.offset)]
  for xid, x in enumerate(self.xpoints) for yid, y in enumerate(self.ypoints)]`. -/
def vertsList (t : Terrain) (mat : List (List ℚ)) : List Vertex :=
  t.xpoints.enum.flatMap (fun p =>
    t.ypoints.enum.map (fun q =>
      (p.2, q.2,
        (mat.getD p.1 []).getD q.1 0 *
          t.noise2 ((p.1 : ℚ) / 5 + t.offset) ((q.1 : ℚ) / 5 + t.offset))))

/-- Lines 114-130 of `mesh`: for each `yid < nfaces - 1` (with
`yoffset = yid * nfaces`) and each `xid < nfaces - 1`, the two triangles
`[xid+yoffset, xid+yoffset+nfaces, xid+yoffset+nfaces+1]` and
`[xid+yoffset, xid+yoffset+1, xid+yoffset+nfaces+1]`. -/
def facesList (nfaces : ℕ) : List Face :=
  (List.range (nfaces - 1)).flatMap (fun yid =>
    (List.range (nfaces - 1)).flatMap (fun xid =>
      [(xid + yid * nfaces, xid + yid * nfaces + nfaces,
          xid + yid * nfaces + nfaces + 1),
        (xid + yid * nfaces, xid + yid * nfaces + 1,
          xid + yid * nfaces + nfaces + 1)]))

/-- Lines 131-132 of `mesh`: the two alternating translucent-green RGBA
colors, appended in step with the two triangles of each quad. -/
def colorsList (nfaces : ℕ) : List Color :=
  (List.range (nfaces - 1)).flatMap (fun _ =>
    (List.range (nfaces - 1)).flatMap (fun _ =>
      [(1 / 10, 3 / 10, 0, 35 / 100), (9 / 100, 3 / 10, 0, 35 / 100)]))

/-- Model of `Terrain.mesh(self, offset=0, height=1.5, waveform=None)`
(lines 75-137).
The `offset` and `height` parameters appear in the signature exactly as in
the source; the body reads neither (the noise call uses `self.offset`). -/
def mesh (t : Terrain) (offset height : ℚ)
    (waveform : Option (List (Fin 256))) : Option MeshData :=
  (amplitudeMatrix t waveform).map
    (fun mat => (vertsList t mat, facesList t.nfaces, colorsList t.nfaces))

/-- Model of `Terrain.update` (lines 139-152): read one buffer from the stream
(modelled as the argument `wf_data`), build the mesh with
`self.mesh(offset=self.offset, waveform=wf_data)` (default `height=1.5`),
hand the mesh data to the renderer, then `self.offset -= 0.059`. -/
def update (t : Terrain) (wf_data : List (Fin 256)) :
    Option (Terrain × MeshData) :=
  (mesh t t.offset (3 / 2) (some wf_data)).map
    (fun m => ({ t with offset := t.offset - 59 / 1000 }, m))

/-- Iteration of `k` ticks of the animation loop: tick `n` consumes the
buffer `stream n` delivered by the audio device. -/
def run (t : Terrain) (stream : ℕ → List (Fin 256)) : ℕ → Option Terrain
  | 0 => some t
  | k + 1 => (run t stream k).bind (fun u => (update u (stream k)).map Prod.fst)

/-- The z-value the spec's words prescribe for cell `(i, j)` under offset
argument `o`: `amplitude_matrix[i][j] * noise2(xpoints[i]/5 + o, ypoints[j]/5 + o)`
(spec §4.1 "Query" and §4.3 step 1) — stated for comparison with the code's
`vertsList`. -/
def specSampleZ (t : Terrain) (mat : List (List ℚ)) (o : ℚ) (i j : ℕ) : ℚ :=
  (mat.getD i []).getD j 0 *
    t.noise2 (t.xpoints.getD i 0 / 5 + o) (t.ypoints.getD j 0 / 5 + o)

/-- A minimal concrete state used to instantiate hypotheses: a 1×1 grid with
`CHUNK = 1` and a noise function returning its first argument. -/
def tinyTerrain : Terrain :=
  { nsteps := 1
    offset := 0
    ypoints := [-20]
    xpoints := [-20]
    nfaces := 1
    RATE := 44100
    CHUNK := 1
    noise2 := fun a _ => a }

/-- A concrete 32×32 state (the reference grid dimensions) with a constant
noise function, used to instantiate hypotheses that need `1024` grid
cells. -/
def squareTerrain : Terrain :=
  { nsteps := 1
    offset := 0
    ypoints := List.replicate 32 0
    xpoints := List.replicate 32 0
    nfaces := 32
    RATE := 44100
    CHUNK := 1024
    noise2 := fun _ _ => 0 }

/-! ## Helper lemmas -/

theorem everySecond_length (l : List α) :
    (everySecond l).length = (l.length + 1) / 2 := by
  induction l using everySecond.induct <;> simp_all [everySecond] <;> omega

theorem everySecond_getD (l : List α) (k : ℕ) (d : α) :
    (everySecond l).getD k d = l.getD (2 * k) d := by
  induction l using everySecond.induct generalizing k with
  | case1 => simp [everySecond]
  | case2 a =>
    match k with
    | 0 => simp [everySecond]
    | k + 1 =>
      have h1 : (everySecond [a]).getD (k + 1) d = d := by
        rw [show everySecond [a] = [a] from rfl]
        exact List.getD_eq_default _ _ (by simp only [List.length_singleton]; omega)
      have h2 : ([a] : List α).getD (2 * (k + 1)) d = d :=
        List.getD_eq_default _ _ (by simp only [List.length_singleton]; omega)
      rw [h1, h2]
  | case3 a b rest ih =>
    match k with
    | 0 => simp [everySecond]
    | k + 1 =>
      have h2 : 2 * (k + 1) = 2 * k + 1 + 1 := by omega
      simp only [everySecond, List.getD_cons_succ, h2]
      exact ih k

theorem length_flatMap_const {l : List α} {f : α → List β} {c : ℕ}
    (h : ∀ a ∈ l, (f a).length = c) : (l.flatMap f).length = l.length * c := by
  induction l with
  | nil => simp
  | cons a l ih =>
    simp only [List.flatMap_cons, List.length_append, List.length_cons]
    rw [h a (by simp), ih (fun x hx => h x (by simp [hx]))]
    ring

theorem face_index_lt {x y n : ℕ} (hx : x < n - 1) (hy : y < n - 1) :
    x + y * n + n + 1 < n * n := by
  obtain ⟨m, rfl⟩ : ∃ m, n = m + 2 := ⟨n - 2, by omega⟩
  have hy' : y * (m + 2) ≤ m * (m + 2) := Nat.mul_le_mul_right _ (by omega)
  have e1 : (m + 2) * (m + 2) = m * (m + 2) + 2 * m + 4 := by ring
  omega

theorem reshapeRows_length (nx ny : ℕ) (l : List ℚ) :
    (reshapeRows nx ny l).length = nx := by
  induction nx generalizing l with
  | zero => simp [reshapeRows]
  | succ nx ih => simp [reshapeRows, ih]

theorem reshapeRows_row_length {nx ny : ℕ} {l : List ℚ} (h : nx * ny ≤ l.length)
    {i : ℕ} (hi : i < nx) : ((reshapeRows nx ny l).getD i []).length = ny := by
  induction nx generalizing l i with
  | zero => omega
  | succ nx ih =>
    match i with
    | 0 =>
      simp only [reshapeRows, List.getD_cons_zero, List.length_take]
      have e1 : (nx + 1) * ny = nx * ny + ny := by ring
      omega
    | i + 1 =>
      simp only [reshapeRows, List.getD_cons_succ]
      refine ih ?_ (by omega)
      have e1 : (nx + 1) * ny = nx * ny + ny := by ring
      simp only [List.length_drop]
      omega

theorem reshapeRows_getD {nx ny : ℕ} {l : List ℚ} (h : nx * ny ≤ l.length)
    {i j : ℕ} (hi : i < nx) (hj : j < ny) (d : ℚ) :
    ((reshapeRows nx ny l).getD i []).getD j d = l.getD (i * ny + j) d := by
  induction nx generalizing l i with
  | zero => omega
  | succ nx ih =>
    match i with
    | 0 =>
      simp only [reshapeRows, List.getD_cons_zero, Nat.zero_mul, Nat.zero_add]
      rw [List.getD_eq_getD_get?, List.getD_eq_getD_get?, List.get?_take hj]
    | i + 1 =>
      simp only [reshapeRows, List.getD_cons_succ]
      have hdrop : nx * ny ≤ (l.drop ny).length := by
        have e1 : (nx + 1) * ny = nx * ny + ny := by ring
        simp only [List.length_drop]
        omega
      rw [ih hdrop (by omega)]
      rw [List.getD_eq_getD_get?, List.getD_eq_getD_get?, List.get?_drop]
      congr 1
      ring_nf

theorem grid_getD {α β γ : Type _} (xs : List α) (ys : List β)
    (g : ℕ → α → ℕ → β → γ) (n : ℕ) (d : γ) {i j : ℕ}
    (hi : i < xs.length) (hj : j < ys.length) :
    ((xs.enumFrom n).flatMap
        (fun p => ys.enum.map (fun q => g p.1 p.2 q.1 q.2))).getD
      (i * ys.length + j) d = g (n + i) (xs.get ⟨i, hi⟩) j (ys.get ⟨j, hj⟩) := by
  induction xs generalizing n i with
  | nil => exact absurd hi (Nat.not_lt_zero i)
  | cons x xs ih =>
    match i with
    | 0 =>
      rw [List.enumFrom_cons, List.flatMap_cons, Nat.zero_mul, Nat.zero_add,
        List.getD_append _ _ _ _ (by simpa using hj),
        List.getD_eq_getElem _ _ (by simpa using hj)]
      simp
    | i + 1 =>
      rw [List.enumFrom_cons, List.flatMap_cons]
      have hlen : (List.map (fun q => g (n, x).1 (n, x).2 q.1 q.2)
          ys.enum).length = ys.length := by simp
      have hidx : (i + 1) * ys.length + j = ys.length + (i * ys.length + j) := by
        ring
      rw [hidx, List.getD_append_right _ _ _ _ (by rw [hlen]; omega), hlen,
        Nat.add_sub_cancel_left]
      have hi' : i < xs.length := by simpa using hi
      have := ih (n + 1) hi'
      rw [this]
      have hn : n + 1 + i = n + (i + 1) := by omega
      rw [hn]
      rfl

theorem vertsList_getD (t : Terrain) (mat : List (List ℚ)) {i j : ℕ}
    (hi : i < t.xpoints.length) (hj : j < t.ypoints.length) :
    (vertsList t mat).getD (i * t.ypoints.length + j) (0, 0, 0) =
      (t.xpoints.get ⟨i, hi⟩, t.ypoints.get ⟨j, hj⟩,
        (mat.getD i []).getD j 0 *
          t.noise2 ((i : ℚ) / 5 + t.offset) ((j : ℚ) / 5 + t.offset)) := by
  have h := grid_getD t.xpoints t.ypoints
      (fun a xv b yv => ((xv, yv, (mat.getD a []).getD b 0 *
        t.noise2 ((a : ℚ) / 5 + t.offset) ((b : ℚ) / 5 + t.offset)) : Vertex))
      0 (0, 0, 0) hi hj
  simpa [vertsList, List.enum] using h

theorem vertsList_length (t : Terrain) (mat : List (List ℚ)) :
    (vertsList t mat).length = t.xpoints.length * t.ypoints.length := by
  unfold vertsList
  rw [length_flatMap_const (c := t.ypoints.length) (fun a _ => by simp)]
  simp

theorem facesList_length (n : ℕ) :
    (facesList n).length = 2 * (n - 1) ^ 2 := by
  have hinner : ∀ yid ∈ List.range (n - 1),
      ((List.range (n - 1)).flatMap (fun xid =>
        ([(xid + yid * n, xid + yid * n + n, xid + yid * n + n + 1),
          (xid + yid * n, xid + yid * n + 1,
            xid + yid * n + n + 1)] : List Face))).length = (n - 1) * 2 := by
    intro yid _
    have h2 : ∀ xid ∈ List.range (n - 1),
        (([(xid + yid * n, xid + yid * n + n, xid + yid * n + n + 1),
          (xid + yid * n, xid + yid * n + 1,
            xid + yid * n + n + 1)] : List Face)).length = 2 := fun _ _ => rfl
    rw [length_flatMap_const h2]
    simp
  unfold facesList
  rw [length_flatMap_const hinner]
  simp
  ring

theorem colorsList_length (n : ℕ) :
    (colorsList n).length = 2 * (n - 1) ^ 2 := by
  have hinner : ∀ yid ∈ List.range (n - 1),
      ((List.range (n - 1)).flatMap (fun _ =>
        ([(1 / 10, 3 / 10, 0, 35 / 100),
          (9 / 100, 3 / 10, 0, 35 / 100)] : List Color))).length =
        (n - 1) * 2 := by
    intro yid _
    have h2 : ∀ xid ∈ List.range (n - 1),
        (([(1 / 10, 3 / 10, 0, 35 / 100),
          (9 / 100, 3 / 10, 0, 35 / 100)] : List Color)).length = 2 :=
      fun _ _ => rfl
    rw [length_flatMap_const h2]
    simp
  unfold colorsList
  rw [length_flatMap_const hinner]
  simp
  ring

theorem mesh_eq_some {t : Terrain} {o h : ℚ} {wf : Option (List (Fin 256))}
    {m : MeshData} (hm : mesh t o h wf = some m) :
    ∃ mat, amplitudeMatrix t wf = some mat ∧
      m = (vertsList t mat, facesList t.nfaces, colorsList t.nfaces) := by
  unfold mesh at hm
  cases ha : amplitudeMatrix t wf with
  | none => rw [ha] at hm; simp at hm
  | some mat =>
    rw [ha] at hm
    simp only [Option.map_some', Option.some.injEq] at hm
    exact ⟨mat, rfl, hm.symm⟩

theorem decodeWaveform_spec {CHUNK : ℕ} {buf : List (Fin 256)}
    (h : buf.length = 2 * CHUNK) :
    ∃ flat, decodeWaveform CHUNK buf = some flat ∧ flat.length = CHUNK ∧
      ∀ k d, k < CHUNK →
        flat.getD k d = ((toSigned8 (buf.getD (2 * k) 0) : ℤ) : ℚ) * (2 / 100) := by
  rw [decodeWaveform, if_pos h]
  refine ⟨_, rfl, ?_, ?_⟩
  · simp only [List.length_map, everySecond_length, h]
    omega
  · intro k d hk
    have hL : (everySecond (buf.map toSigned8)).length = CHUNK := by
      simp only [everySecond_length, List.length_map, h]
      omega
    have h2k : 2 * k < buf.length := by omega
    rw [List.getD_eq_getElem _ _ (by simp only [List.length_map, hL]; omega)]
    simp only [List.getElem_map]
    have e2 : ((buf.map toSigned8)).getD (2 * k) 0 =
        toSigned8 (buf.getD (2 * k) 0) := by
      rw [List.getD_eq_getElem _ _ (by simp only [List.length_map]; omega),
        List.getElem_map, List.getD_eq_getElem _ _ h2k]
    have e3 : (everySecond (buf.map toSigned8)).getD k 0 =
        (buf.map toSigned8).getD (2 * k) 0 := everySecond_getD _ _ _
    rw [← @List.getD_eq_getElem _ (everySecond (buf.map toSigned8)) 0 k
      (by omega), e3, e2]
    push_cast
    ring

theorem amplitudeMatrix_of_some (t : Terrain) (buf : List (Fin 256)) :
    amplitudeMatrix t (some buf) =
      (decodeWaveform t.CHUNK buf).bind
        (fun flat => reshape t.xpoints.length t.ypoints.length flat) := rfl

theorem mesh_isSome {t : Terrain} {o h : ℚ} {buf : List (Fin 256)}
    (hlen : buf.length = 2 * t.CHUNK)
    (hsq : t.CHUNK = t.xpoints.length * t.ypoints.length) :
    ∃ m, mesh t o h (some buf) = some m := by
  obtain ⟨flat, hd, hflen, -⟩ := decodeWaveform_spec hlen
  unfold mesh
  rw [amplitudeMatrix_of_some, hd]
  simp only [Option.some_bind]
  rw [reshape, if_pos (by omega)]
  exact ⟨_, rfl⟩

theorem amplitudeMatrix_of_none {t : Terrain}
    (hsq : t.xpoints.length * t.ypoints.length = 1024) :
    amplitudeMatrix t none =
      some (reshapeRows t.xpoints.length t.ypoints.length
        (List.replicate 1024 1)) := by
  have h0 : amplitudeMatrix t none =
      reshape t.xpoints.length t.ypoints.length (List.replicate 1024 1) := rfl
  rw [h0, reshape, if_pos (by rw [List.length_replicate]; omega)]

theorem facesList_mem {n : ℕ} {fc : Face} (h : fc ∈ facesList n) :
    ∃ xid yid, xid < n - 1 ∧ yid < n - 1 ∧
      (fc = (xid + yid * n, xid + yid * n + n, xid + yid * n + n + 1) ∨
        fc = (xid + yid * n, xid + yid * n + 1, xid + yid * n + n + 1)) := by
  unfold facesList at h
  simp only [List.mem_flatMap, List.mem_range, List.mem_cons,
    List.not_mem_nil, or_false] at h
  obtain ⟨yid, hy, xid, hx, hor⟩ := h
  exact ⟨xid, yid, hx, hy, hor⟩

theorem update_spec {t : Terrain} {wf : List (Fin 256)}
    (hlen : wf.length = 2 * t.CHUNK)
    (hsq : t.CHUNK = t.xpoints.length * t.ypoints.length) :
    ∃ u m, update t wf = some (u, m) ∧ u.offset = t.offset - 59 / 1000 ∧
      u.xpoints = t.xpoints ∧ u.ypoints = t.ypoints ∧ u.CHUNK = t.CHUNK ∧
      u.nfaces = t.nfaces := by
  obtain ⟨m, hm⟩ := @mesh_isSome t t.offset (3 / 2) wf hlen hsq
  refine ⟨{ t with offset := t.offset - 59 / 1000 }, m, ?_, rfl, rfl, rfl,
    rfl, rfl⟩
  unfold update
  rw [hm]
  rfl

theorem update_dest {t u : Terrain} {wf : List (Fin 256)} {m : MeshData}
    (h : update t wf = some (u, m)) :
    u = { t with offset := t.offset - 59 / 1000 } := by
  unfold update at h
  cases hm : mesh t t.offset (3 / 2) (some wf) with
  | none => rw [hm] at h; simp at h
  | some m' =>
    rw [hm] at h
    simp only [Option.map_some', Option.some.injEq, Prod.mk.injEq] at h
    exact h.1.symm

theorem run_spec {t : Terrain} {stream : ℕ → List (Fin 256)}
    (hsq : t.CHUNK = t.xpoints.length * t.ypoints.length)
    (hstream : ∀ k, (stream k).length = 2 * t.CHUNK) :
    ∀ k, ∃ u, run t stream k = some u ∧
      u.offset = t.offset - (59 / 1000) * k ∧
      u.xpoints = t.xpoints ∧ u.ypoints = t.ypoints ∧ u.CHUNK = t.CHUNK := by
  intro k
  induction k with
  | zero => exact ⟨t, rfl, by simp, rfl, rfl, rfl⟩
  | succ k ih =>
    obtain ⟨u, hr, hoff, hx, hy, hc⟩ := ih
    have hsq' : u.CHUNK = u.xpoints.length * u.ypoints.length := by
      rw [hc, hx, hy]; exact hsq
    have hlen' : (stream k).length = 2 * u.CHUNK := by rw [hc]; exact hstream k
    obtain ⟨u', m, hu, ho', hx', hy', hc', -⟩ := update_spec hlen' hsq'
    refine ⟨u', ?_, ?_, by rw [hx', hx], by rw [hy', hy], by rw [hc', hc]⟩
    · show (run t stream k).bind
        (fun v => (update v (stream k)).map Prod.fst) = some u'
      rw [hr, Option.some_bind, hu]
      rfl
    · rw [ho', hoff]
      push_cast
      ring

theorem arange_getD {lo hi step : ℚ} {i : ℕ} (h : i < arangeLen lo hi step) :
    (arange lo hi step).getD i 0 = lo + step * i := by
  unfold arange
  rw [List.getD_eq_getElem _ _
    (by rw [List.length_map, List.length_range]; exact h)]
  rw [List.getElem_map, List.getElem_range]

theorem arange_length (lo hi step : ℚ) :
    (arange lo hi step).length = arangeLen lo hi step := by
  unfold arange
  rw [List.length_map, List.length_range]

theorem cell_lt {i j nx ny : ℕ} (hi : i < nx) (hj : j < ny) :
    i * ny + j < nx * ny := by
  have h1 : (i + 1) * ny ≤ nx * ny := Nat.mul_le_mul_right _ hi
  have e : (i + 1) * ny = i * ny + ny := by ring
  omega

/-! ## Claims -/

/-- C1, counterexample: the claim's formula
`amplitude_matrix[i][j] * noise2(xpoints[i]/5 + offset_arg, ypoints[j]/5 + offset_arg)`
(`specSampleZ`) disagrees with the emitted vertex z on a concrete state: on
`tinyTerrain` with buffer `[1, 0]` and offset argument `1`, the emitted z is
`0` (the code samples the noise at index/5 plus the stored offset field,
here `0/5 + 0 = 0`), while the claim's formula gives `-3/50`
(`(1/50) * noise2(-20/5 + 1, ...) = (1/50) * (-3)`). -/
theorem mesh_noise_args_counterexample :
    mesh tinyTerrain 1 (3 / 2) (some [1, 0]) =
      some ([((-20 : ℚ), (-20 : ℚ), (0 : ℚ))], [], []) ∧
    amplitudeMatrix tinyTerrain (some [1, 0]) = some [[(1 : ℚ) / 50]] ∧
    (([((-20 : ℚ), (-20 : ℚ), (0 : ℚ))] : List Vertex).getD 0 (0, 0, 0)).2.2 ≠
      specSampleZ tinyTerrain [[(1 : ℚ) / 50]] 1 0 0 := by
  refine ⟨?_, ?_, ?_⟩
  · norm_num [mesh, amplitudeMatrix_of_some, tinyTerrain, decodeWaveform,
      toSigned8, everySecond, reshape, reshapeRows, vertsList, facesList,
      colorsList, List.enum, List.enumFrom]
  · norm_num [amplitudeMatrix_of_some, tinyTerrain, decodeWaveform,
      toSigned8, everySecond, reshape, reshapeRows]
  · norm_num [specSampleZ, tinyTerrain]

/-- C1 (amended): for every grid cell `(i, j)`, the z-coordinate of the
emitted vertex equals `amplitude_matrix[i][j]` multiplied by the noise
function evaluated at `(i/5 + self.offset, j/5 + self.offset)` — the grid
*indices* scaled by `1/5` (not the grid coordinates `xpoints[i]`,
`ypoints[j]`), shifted by the *stored* offset field (not the offset
parameter of the call). -/
theorem mesh_vertex_z_formula :
    ∀ (t : Terrain) (o hgt : ℚ) (wf : Option (List (Fin 256)))
      (v : List Vertex) (f : List Face) (c : List Color)
      (mat : List (List ℚ)),
      mesh t o hgt wf = some (v, f, c) →
      amplitudeMatrix t wf = some mat →
      ∀ i j (hi : i < t.xpoints.length) (hj : j < t.ypoints.length),
        v.getD (i * t.ypoints.length + j) (0, 0, 0) =
          (t.xpoints.get ⟨i, hi⟩, t.ypoints.get ⟨j, hj⟩,
            (mat.getD i []).getD j 0 *
              t.noise2 ((i : ℚ) / 5 + t.offset) ((j : ℚ) / 5 + t.offset)) := by
  intro t o hgt wf v f c mat hm hmat i j hi hj
  obtain ⟨mat', hmat', heq⟩ := mesh_eq_some hm
  rw [hmat] at hmat'
  injection hmat' with he
  subst he
  simp only [Prod.mk.injEq] at heq
  obtain ⟨rfl, -, -⟩ := heq
  exact vertsList_getD t mat hi hj

/-- Witness for C1's amended theorem at `tinyTerrain`, buffer `[1, 0]`,
cell `(0, 0)`. -/
theorem mesh_vertex_z_formula_witness :
    ([((-20 : ℚ), (-20 : ℚ), (0 : ℚ))] : List Vertex).getD
        (0 * tinyTerrain.ypoints.length + 0) (0, 0, 0) =
      (tinyTerrain.xpoints.get ⟨0, by decide⟩,
        tinyTerrain.ypoints.get ⟨0, by decide⟩,
        (([[(1 : ℚ) / 50]]).getD 0 []).getD 0 0 *
          tinyTerrain.noise2 (((0 : ℕ) : ℚ) / 5 + tinyTerrain.offset)
            (((0 : ℕ) : ℚ) / 5 + tinyTerrain.offset)) :=
  mesh_vertex_z_formula tinyTerrain 0 (3 / 2) (some [1, 0])
    [((-20 : ℚ), (-20 : ℚ), (0 : ℚ))] [] [] [[(1 : ℚ) / 50]]
    (by norm_num [mesh, amplitudeMatrix_of_some, tinyTerrain, decodeWaveform,
      toSigned8, everySecond, reshape, reshapeRows, vertsList, facesList,
      colorsList, List.enum, List.enumFrom])
    (by norm_num [amplitudeMatrix_of_some, tinyTerrain, decodeWaveform,
      toSigned8, everySecond, reshape, reshapeRows])
    0 0 (by decide) (by decide)

/-- C2: the face list and the color list returned by any two successful
mesh-building calls on the same state — whatever the offset, height and
waveform arguments — are value-identical (both always equal the lists
determined by `nfaces` alone). -/
theorem mesh_faces_colors_stable :
    ∀ (t : Terrain) (o1 h1 o2 h2 : ℚ) (wf1 wf2 : Option (List (Fin 256)))
      (m1 m2 : MeshData),
      mesh t o1 h1 wf1 = some m1 → mesh t o2 h2 wf2 = some m2 →
      m1.2.1 = m2.2.1 ∧ m1.2.2 = m2.2.2 := by
  intro t o1 h1 o2 h2 wf1 wf2 m1 m2 hm1 hm2
  obtain ⟨mat1, -, rfl⟩ := mesh_eq_some hm1
  obtain ⟨mat2, -, rfl⟩ := mesh_eq_some hm2
  exact ⟨rfl, rfl⟩

/-- Witness for C2: two calls on `tinyTerrain` with different offsets,
heights and waveforms. -/
theorem mesh_faces_colors_stable_witness :
    ((([((-20 : ℚ), (-20 : ℚ), (0 : ℚ))], [], []) : MeshData)).2.1 =
        ((([((-20 : ℚ), (-20 : ℚ), (0 : ℚ))], [], []) : MeshData)).2.1 ∧
      ((([((-20 : ℚ), (-20 : ℚ), (0 : ℚ))], [], []) : MeshData)).2.2 =
        ((([((-20 : ℚ), (-20 : ℚ), (0 : ℚ))], [], []) : MeshData)).2.2 :=
  mesh_faces_colors_stable tinyTerrain 0 (3 / 2) 5 7
    (some [1, 0]) (some [0, 0]) _ _
    (by norm_num [mesh, amplitudeMatrix_of_some, tinyTerrain, decodeWaveform,
      toSigned8, everySecond, reshape, reshapeRows, vertsList, facesList,
      colorsList, List.enum, List.enumFrom])
    (by norm_num [mesh, amplitudeMatrix_of_some, tinyTerrain, decodeWaveform,
      toSigned8, everySecond, reshape, reshapeRows, vertsList, facesList,
      colorsList, List.enum, List.enumFrom])

/-- C3: for every buffer of exactly `2*CHUNK` bytes (with `CHUNK` equal to
the grid cell count, as established at initialization), the decoded
amplitude matrix has shape `(len(xpoints), len(ypoints))`, is filled in
row-major order, and each cell equals the low byte of the corresponding
16-bit little-endian sample (the byte at offset `2*(i*ny + j)`) read as a
signed 8-bit value, times the gain `0.02` — the `+128`/widen/`-128` chain
cancels; an all-zero buffer decodes to an all-zero matrix. -/
theorem decode_matrix_spec :
    ∀ (t : Terrain) (buf : List (Fin 256)),
      buf.length = 2 * t.CHUNK →
      t.CHUNK = t.xpoints.length * t.ypoints.length →
      ∃ mat, amplitudeMatrix t (some buf) = some mat ∧
        mat.length = t.xpoints.length ∧
        (∀ i, i < t.xpoints.length →
          (mat.getD i []).length = t.ypoints.length) ∧
        (∀ i j, i < t.xpoints.length → j < t.ypoints.length →
          (mat.getD i []).getD j 0 =
            ((toSigned8 (buf.getD (2 * (i * t.ypoints.length + j)) 0) : ℤ) :
              ℚ) * (2 / 100)) ∧
        ((∀ b ∈ buf, b = 0) →
          ∀ i j, i < t.xpoints.length → j < t.ypoints.length →
            (mat.getD i []).getD j 0 = 0) := by
  intro t buf hlen hsq
  obtain ⟨flat, hd, hflen, hcell⟩ := decodeWaveform_spec hlen
  have hcellbound : ∀ {i j : ℕ}, i < t.xpoints.length →
      j < t.ypoints.length → i * t.ypoints.length + j < t.CHUNK := by
    intro i j hi hj
    have := cell_lt hi hj
    omega
  refine ⟨reshapeRows t.xpoints.length t.ypoints.length flat, ?_, ?_, ?_,
    ?_, ?_⟩
  · rw [amplitudeMatrix_of_some, hd, Option.some_bind, reshape,
      if_pos (by omega)]
  · exact reshapeRows_length _ _ _
  · intro i hi
    exact reshapeRows_row_length (by omega) hi
  · intro i j hi hj
    rw [reshapeRows_getD (by omega) hi hj]
    exact hcell _ 0 (hcellbound hi hj)
  · intro hz i j hi hj
    rw [reshapeRows_getD (by omega) hi hj,
      hcell _ 0 (hcellbound hi hj)]
    have hb : buf.getD (2 * (i * t.ypoints.length + j)) 0 = 0 := by
      rcases Nat.lt_or_ge (2 * (i * t.ypoints.length + j)) buf.length with
        hlt | hge
      · rw [List.getD_eq_getElem _ _ hlt]
        exact hz _ (List.getElem_mem hlt)
      · exact List.getD_eq_default _ _ hge
    rw [hb]
    norm_num [toSigned8]

/-- Witness for C3 at `tinyTerrain` with the all-zero buffer `[0, 0]`. -/
theorem decode_matrix_spec_witness :
    ([(0 : Fin 256), 0] : List (Fin 256)).length = 2 * tinyTerrain.CHUNK ∧
    tinyTerrain.CHUNK =
      tinyTerrain.xpoints.length * tinyTerrain.ypoints.length ∧
    ∃ mat, amplitudeMatrix tinyTerrain (some [0, 0]) = some mat ∧
      mat.length = tinyTerrain.xpoints.length ∧
      (∀ i, i < tinyTerrain.xpoints.length →
        (mat.getD i []).length = tinyTerrain.ypoints.length) ∧
      (∀ i j, i < tinyTerrain.xpoints.length →
        j < tinyTerrain.ypoints.length →
        (mat.getD i []).getD j 0 =
          ((toSigned8 (([(0 : Fin 256), 0] : List (Fin 256)).getD
              (2 * (i * tinyTerrain.ypoints.length + j)) 0) : ℤ) : ℚ) *
            (2 / 100)) ∧
      ((∀ b ∈ ([(0 : Fin 256), 0] : List (Fin 256)), b = 0) →
        ∀ i j, i < tinyTerrain.xpoints.length →
          j < tinyTerrain.ypoints.length →
          (mat.getD i []).getD j 0 = 0) :=
  ⟨by decide, by decide,
    decode_matrix_spec tinyTerrain [0, 0] (by decide) (by decide)⟩

/-- C4: every successful mesh-building call on an `nfaces × nfaces` grid
returns exactly `nfaces^2` vertices and `2*(nfaces-1)^2` faces, every
face's three vertex indices are pairwise distinct and lie in
`[0, nfaces^2)`, and the color list has the same length as the face
list. -/
theorem mesh_counts :
    ∀ (t : Terrain) (o hgt : ℚ) (wf : Option (List (Fin 256)))
      (v : List Vertex) (f : List Face) (c : List Color),
      t.xpoints.length = t.nfaces → t.ypoints.length = t.nfaces →
      mesh t o hgt wf = some (v, f, c) →
      v.length = t.nfaces ^ 2 ∧ f.length = 2 * (t.nfaces - 1) ^ 2 ∧
      c.length = f.length ∧
      ∀ fc ∈ f, fc.1 ≠ fc.2.1 ∧ fc.1 ≠ fc.2.2 ∧ fc.2.1 ≠ fc.2.2 ∧
        fc.1 < t.nfaces ^ 2 ∧ fc.2.1 < t.nfaces ^ 2 ∧
        fc.2.2 < t.nfaces ^ 2 := by
  intro t o hgt wf v f c hx hy hm
  obtain ⟨mat, -, heq⟩ := mesh_eq_some hm
  simp only [Prod.mk.injEq] at heq
  obtain ⟨rfl, rfl, rfl⟩ := heq
  have hpow : t.nfaces ^ 2 = t.nfaces * t.nfaces := by ring
  refine ⟨?_, facesList_length _, ?_, ?_⟩
  · rw [vertsList_length, hx, hy, hpow]
  · rw [colorsList_length, facesList_length]
  · intro fc hfc
    obtain ⟨xid, yid, hxid, hyid, hor⟩ := facesList_mem hfc
    have hb : xid + yid * t.nfaces + t.nfaces + 1 < t.nfaces * t.nfaces :=
      face_index_lt hxid hyid
    rcases hor with rfl | rfl
    · refine ⟨?_, ?_, ?_, ?_, ?_, ?_⟩ <;> dsimp only <;> omega
    · refine ⟨?_, ?_, ?_, ?_, ?_, ?_⟩ <;> dsimp only <;> omega

/-- Witness for C4: the mesh built on `tinyTerrain` (a 1×1 grid). -/
theorem mesh_counts_witness :
    ([((-20 : ℚ), (-20 : ℚ), (0 : ℚ))] : List Vertex).length =
        tinyTerrain.nfaces ^ 2 ∧
      ([] : List Face).length = 2 * (tinyTerrain.nfaces - 1) ^ 2 ∧
      ([] : List Color).length = ([] : List Face).length ∧
      ∀ fc ∈ ([] : List Face), fc.1 ≠ fc.2.1 ∧ fc.1 ≠ fc.2.2 ∧
        fc.2.1 ≠ fc.2.2 ∧ fc.1 < tinyTerrain.nfaces ^ 2 ∧
        fc.2.1 < tinyTerrain.nfaces ^ 2 ∧ fc.2.2 < tinyTerrain.nfaces ^ 2 :=
  mesh_counts tinyTerrain 0 (3 / 2) (some [1, 0]) _ _ _
    (by decide) (by decide)
    (by norm_num [mesh, amplitudeMatrix_of_some, tinyTerrain, decodeWaveform,
      toSigned8, everySecond, reshape, reshapeRows, vertsList, facesList,
      colorsList, List.enum, List.enumFrom])

/-- C5: for any step `nsteps > 0` (with the fixed common bounds
`[-20, 20 + nsteps)`), `xpoints` and `ypoints` are the same arithmetic
progression (`getD i = -20 + nsteps*i`), their common length is `nfaces`,
and `CHUNK = len(xpoints) * len(ypoints) = nfaces^2` at initialization;
the per-tick operation never changes the grid, `nfaces`, or `CHUNK`. -/
theorem grid_chunk_invariant :
    (∀ (nz : ℚ → ℚ → ℚ) (nsteps : ℚ), 0 < nsteps →
      (initTerrain nz nsteps).xpoints = (initTerrain nz nsteps).ypoints ∧
      (initTerrain nz nsteps).xpoints.length =
        (initTerrain nz nsteps).nfaces ∧
      (initTerrain nz nsteps).ypoints.length =
        (initTerrain nz nsteps).nfaces ∧
      (∀ i, i < (initTerrain nz nsteps).xpoints.length →
        (initTerrain nz nsteps).xpoints.getD i 0 = -20 + nsteps * i) ∧
      (initTerrain nz nsteps).CHUNK =
        (initTerrain nz nsteps).xpoints.length *
          (initTerrain nz nsteps).ypoints.length ∧
      (initTerrain nz nsteps).CHUNK = (initTerrain nz nsteps).nfaces ^ 2) ∧
    (∀ (t u : Terrain) (wf : List (Fin 256)) (m : MeshData),
      update t wf = some (u, m) →
      u.xpoints = t.xpoints ∧ u.ypoints = t.ypoints ∧ u.CHUNK = t.CHUNK ∧
      u.nfaces = t.nfaces) := by
  constructor
  · intro nz nsteps _
    refine ⟨rfl, rfl, rfl, ?_, rfl, ?_⟩
    · intro i hi
      have hi' : i < arangeLen (-20) (20 + nsteps) nsteps := by
        rw [← arange_length (-20) (20 + nsteps) nsteps]
        exact hi
      exact arange_getD hi'
    · show (arange (-20) (20 + nsteps) nsteps).length *
          (arange (-20) (20 + nsteps) nsteps).length =
        (arange (-20) (20 + nsteps) nsteps).length ^ 2
      ring
  · intro t u wf m h
    rw [update_dest h]
    exact ⟨rfl, rfl, rfl, rfl⟩

/-- Witness for C5 at `nsteps = 1` and a concrete successful tick on
`tinyTerrain`. -/
theorem grid_chunk_invariant_witness :
    (0 : ℚ) < 1 ∧
    (initTerrain (fun _ _ => 0) 1).xpoints =
      (initTerrain (fun _ _ => 0) 1).ypoints ∧
    ({ tinyTerrain with offset := tinyTerrain.offset - 59 / 1000 } :
        Terrain).xpoints = tinyTerrain.xpoints := by
  refine ⟨by norm_num, (grid_chunk_invariant.1 (fun _ _ => 0) 1
    (by norm_num)).1, ?_⟩
  have hupd : ∃ m, update tinyTerrain [0, 0] =
      some ({ tinyTerrain with offset := tinyTerrain.offset - 59 / 1000 },
        m) := by
    obtain ⟨u, m, hu, ho, hx, hy, hc, hf⟩ :=
      @update_spec tinyTerrain [0, 0] (by decide) (by decide)
    refine ⟨m, ?_⟩
    rw [hu, update_dest hu]
  obtain ⟨m, hm⟩ := hupd
  exact (grid_chunk_invariant.2 tinyTerrain _ [0, 0] m hm).1

/-- C6: the scroll offset starts at `0` at construction and each tick ends
by decrementing it by exactly `0.059`, with no other writer; after `k`
successful ticks it equals `-0.059 * k` (exactly, in the rational
model). -/
theorem offset_decrement :
    (∀ (nz : ℚ → ℚ → ℚ) (nsteps : ℚ), (initTerrain nz nsteps).offset = 0) ∧
    (∀ (t : Terrain) (stream : ℕ → List (Fin 256)),
      t.CHUNK = t.xpoints.length * t.ypoints.length →
      (∀ k, (stream k).length = 2 * t.CHUNK) →
      t.offset = 0 →
      ∀ k, ∃ u, run t stream k = some u ∧
        u.offset = -(59 / 1000 : ℚ) * k) := by
  refine ⟨fun _ _ => rfl, ?_⟩
  intro t stream hsq hstream h0 k
  obtain ⟨u, hr, hoff, -, -, -⟩ := run_spec hsq hstream k
  refine ⟨u, hr, ?_⟩
  rw [hoff, h0]
  ring

/-- Witness for C6: two ticks on `tinyTerrain` with all-zero audio
buffers. -/
theorem offset_decrement_witness :
    (∀ k : ℕ, ((fun _ : ℕ => ([0, 0] : List (Fin 256))) k).length =
      2 * tinyTerrain.CHUNK) ∧
    ∃ u, run tinyTerrain (fun _ => [0, 0]) 2 = some u ∧
      u.offset = -(59 / 1000 : ℚ) * (2 : ℕ) :=
  ⟨fun _ => rfl,
    offset_decrement.2 tinyTerrain (fun _ => [0, 0]) (by decide)
      (fun _ => rfl) (by norm_num [tinyTerrain]) 2⟩

/-- C7: when the mesh builder receives no waveform, the substituted
amplitude matrix is all-ones (the reshape of `[1]*1024` succeeds exactly
because the grid has `1024` cells), so every emitted vertex z equals
`1 * noise2(...)` for its cell. -/
theorem mesh_no_waveform_ones :
    ∀ (t : Terrain) (o hgt : ℚ),
      t.xpoints.length * t.ypoints.length = 1024 →
      ∃ v f c, mesh t o hgt none = some (v, f, c) ∧
        ∀ i j (hi : i < t.xpoints.length) (hj : j < t.ypoints.length),
          v.getD (i * t.ypoints.length + j) (0, 0, 0) =
            (t.xpoints.get ⟨i, hi⟩, t.ypoints.get ⟨j, hj⟩,
              1 * t.noise2 ((i : ℚ) / 5 + t.offset)
                ((j : ℚ) / 5 + t.offset)) := by
  intro t o hgt hsq
  have hmat := amplitudeMatrix_of_none hsq
  refine ⟨vertsList t (reshapeRows t.xpoints.length t.ypoints.length
      (List.replicate 1024 1)), facesList t.nfaces, colorsList t.nfaces,
    ?_, ?_⟩
  · unfold mesh
    rw [hmat]
    rfl
  · intro i j hi hj
    rw [vertsList_getD t _ hi hj]
    have hcell : ((reshapeRows t.xpoints.length t.ypoints.length
        (List.replicate 1024 (1 : ℚ))).getD i []).getD j 0 = 1 := by
      rw [reshapeRows_getD (by rw [List.length_replicate]; omega) hi hj]
      have hidx : i * t.ypoints.length + j < 1024 := by
        have := cell_lt hi hj
        omega
      rw [List.getD_eq_getElem _ _ (by rw [List.length_replicate]; omega)]
      exact List.getElem_replicate _ _
    rw [hcell]

/-- Witness for C7 on a concrete 32×32 grid state. -/
theorem mesh_no_waveform_ones_witness :
    squareTerrain.xpoints.length * squareTerrain.ypoints.length = 1024 ∧
    ∃ v f c, mesh squareTerrain 0 (3 / 2) none = some (v, f, c) ∧
      ∀ i j (hi : i < squareTerrain.xpoints.length)
        (hj : j < squareTerrain.ypoints.length),
        v.getD (i * squareTerrain.ypoints.length + j) (0, 0, 0) =
          (squareTerrain.xpoints.get ⟨i, hi⟩,
            squareTerrain.ypoints.get ⟨j, hj⟩,
            1 * squareTerrain.noise2
              ((i : ℚ) / 5 + squareTerrain.offset)
              ((j : ℚ) / 5 + squareTerrain.offset)) :=
  ⟨by simp [squareTerrain],
    mesh_no_waveform_ones squareTerrain 0 (3 / 2) (by simp [squareTerrain])⟩

/-- C8: a non-`None` waveform whose byte length differs from `2*CHUNK`
makes the mesh-building operation fail (the `struct.unpack` with format
`"{2*CHUNK}B"` raises) instead of producing a mesh; the decoder performs
no further validation of its own. -/
theorem mesh_wrong_length_fails :
    ∀ (t : Terrain) (o hgt : ℚ) (buf : List (Fin 256)),
      buf.length ≠ 2 * t.CHUNK →
      mesh t o hgt (some buf) = none := by
  intro t o hgt buf hne
  unfold mesh
  rw [amplitudeMatrix_of_some, decodeWaveform, if_neg hne]
  rfl

/-- Witness for C8: a 1-byte buffer against `2 * CHUNK = 2`. -/
theorem mesh_wrong_length_fails_witness :
    ([(0 : Fin 256)] : List (Fin 256)).length ≠ 2 * tinyTerrain.CHUNK ∧
    mesh tinyTerrain 0 (3 / 2) (some [0]) = none :=
  ⟨by decide, mesh_wrong_length_fails tinyTerrain 0 (3 / 2) [0] (by decide)⟩

/-- C9: the mesh construction is a pure function of the seeded noise
function, the stored offset, the grid and `CHUNK`: two states agreeing on
those fields (whatever their remaining fields and whatever the call's own
offset/height arguments) produce identical mesh data from the same
waveform — repeated runs are bit-identical. -/
theorem mesh_deterministic :
    ∀ (t1 t2 : Terrain) (o1 h1 o2 h2 : ℚ) (wf : Option (List (Fin 256))),
      t1.noise2 = t2.noise2 → t1.offset = t2.offset →
      t1.xpoints = t2.xpoints → t1.ypoints = t2.ypoints →
      t1.CHUNK = t2.CHUNK → t1.nfaces = t2.nfaces →
      mesh t1 o1 h1 wf = mesh t2 o2 h2 wf := by
  intro t1 t2 o1 h1 o2 h2 wf hn ho hx hy hc hf
  cases t1
  cases t2
  simp only at hn ho hx hy hc hf
  subst hn ho hx hy hc hf
  rfl

/-- Witness for C9: `tinyTerrain` against a copy that differs in `RATE`
and `nsteps` only. -/
theorem mesh_deterministic_witness :
    mesh tinyTerrain 0 (3 / 2) (some [1, 0]) =
      mesh { tinyTerrain with RATE := 48000, nsteps := 2 } 9 11
        (some [1, 0]) :=
  mesh_deterministic tinyTerrain
    { tinyTerrain with RATE := 48000, nsteps := 2 } 0 (3 / 2) 9 11
    (some [1, 0]) rfl rfl rfl rfl rfl rfl

/-- C10: the `offset` and `height` parameters of the mesh operation are
never read — any two calls on the same state with the same waveform return
identical vertices, faces and colors whatever those two arguments are. -/
theorem mesh_ignores_offset_height_args :
    ∀ (t : Terrain) (o1 h1 o2 h2 : ℚ) (wf : Option (List (Fin 256))),
      mesh t o1 h1 wf = mesh t o2 h2 wf :=
  fun _ _ _ _ _ _ => rfl

end AudioVisualizer
